import Mathlib

/-!
Verification development for the joerd orchestration core
(`src/joerd/command.py`): the space-constrained eviction routine
`_make_space`, the download execution routine `_download`, the queue
worker message handler of `joerd_server`, download resolution in
`Joerd.list_downloads` / `Joerd.process`, the chunk-size heuristic
`Joerd._chunksize`, and the batch enqueuers `joerd_enqueuer` /
`joerd_enqueue_downloads`.

Machine integers are modelled as `Nat` (all quantities involved are
byte counts, list lengths or indices, never negative, and Python ints
are unbounded).  Exceptions are modelled as explicit error values;
side effects (file deletions, queue sends, log lines, `get_index` /
`downloads_for` calls) are modelled as values or event traces returned
by the embedded functions.
-/

set_option autoImplicit false

namespace Joerd

/-! ### Eviction: `_make_space(tmps, path)`

An entry of the shared superfluous array is either a live path (whose
on-disk size we record, deletion assumed to succeed) or an
already-cleared slot (the empty string written by a previous walk).
`needed` is the total size of the temp files about to be unpacked and
`remaining` the free disk space at the target path, both of which the
Python code obtains from the filesystem. -/

/-- The two exceptions `_make_space` can raise: the guard raise
`Need more space but nothing superfluous to delete` and the final
`Not enough space left on device` raise carrying the shortfall. -/
inductive SpaceError where
  | nothingSuperfluous : SpaceError
  | notEnough (shortfall : Nat) : SpaceError
deriving DecidableEq, Repr

/-- Observable outcome of one `_make_space` invocation: the exception
raised (if any), the free space on exit, and the sizes of the files it
deleted, in deletion order. -/
structure MakeSpaceOut where
  error : Option SpaceError
  remaining : Nat
  deleted : List Nat
deriving DecidableEq, Repr

/-- The `for i in range(len(superfluous))` walk: at each slot the code
first early-returns when `remaining >= needed`, otherwise clears the
slot and, when it held a live path, deletes the file and adds its size
back to `remaining`.  Returns the final free space and the sizes
deleted. -/
def evictLoop (needed : Nat) : Nat → List (Option Nat) → Nat × List Nat
  | remaining, [] => (remaining, [])
  | remaining, e :: rest =>
    if needed ≤ remaining then (remaining, [])
    else
      match e with
      | none => evictLoop needed remaining rest
      | some sz =>
        let r := evictLoop needed (remaining + sz) rest
        (r.1, sz :: r.2)

/-- Sizes of the live (not yet cleared) entries, in list order. -/
def liveSizes (superfluous : List (Option Nat)) : List Nat :=
  superfluous.filterMap id

/-- Total reclaimable size of the live entries. -/
def liveSum (superfluous : List (Option Nat)) : Nat :=
  (liveSizes superfluous).sum

/-- `_make_space` (command.py lines 50-76): raise the guard exception
when the array is non-empty and its last slot is already cleared
(`len(superfluous) and not superfluous[len(superfluous) - 1]`),
otherwise walk the array deleting live entries until `remaining >=
needed`, and finally raise the shortfall exception when the walk ended
with `remaining < needed`. -/
def _make_space (superfluous : List (Option Nat)) (needed remaining : Nat) :
    MakeSpaceOut :=
  if superfluous.getLast? = some none then
    ⟨some .nothingSuperfluous, remaining, []⟩
  else
    let r := evictLoop needed remaining superfluous
    if r.1 < needed then ⟨some (.notEnough (needed - r.1)), r.1, r.2⟩
    else ⟨none, r.1, r.2⟩

/-! ### Download execution: `_download(d, store)` -/

/-- Behaviour of the external collaborators during one `_download(d,
store)` call: whether resolving options and fetching every URL
succeeds, whether the `k`-th attempt of `d.unpack(store, *tmps)`
succeeds (the code retries in a `while True` loop, so the outcome may
differ between attempts), and whether `store.exists(d.output_file())`
holds after a successful unpack. -/
structure DownloadEnv where
  fetch_ok : Bool
  unpack_ok : Nat → Bool
  exists_after : Bool

/-- Index of the first unpack attempt (among the first `fuel`
attempts) that succeeds, if any: the `while True` retry loop exits at
exactly this attempt. -/
def firstUnpackSuccess (env : DownloadEnv) (fuel : Nat) : Option Nat :=
  (List.range fuel).find? env.unpack_ok

/-- `_download` (command.py lines 89-116), fuel-indexed: `none` means
the call has not returned after `fuel` unpack attempts (the `while
True` loop is still spinning); `some (.error ())` means it raised (the
outer bare `except` re-raises everything as a wrapped `Exception`);
`some (.ok ())` means it returned normally.  A fetch failure raises; a
failed unpack attempt is caught, logged, and the loop retries; after a
successful unpack the `assert store.exists(...)` raises when the store
check fails. -/
def _download (env : DownloadEnv) (fuel : Nat) : Option (Except Unit Unit) :=
  if !env.fetch_ok then some (.error ())
  else
    match firstUnpackSuccess env fuel with
    | none => none
    | some _ => if env.exists_after then some (.ok ()) else some (.error ())

/-! ### Queue worker: the per-message handler of `joerd_server` -/

/-- Conditions the `download` branch reads before calling `_download`:
`job['data']` present, `data['type']` present, the type found in
`j.sources`, and `rehydrate(data)` succeeding.  Any failure raises
inside the branch's `try`. -/
structure DLJob where
  hasData : Bool
  hasType : Bool
  knownSource : Bool
  rehydrateOk : Bool
  env : DownloadEnv

/-- The body of one received queue message, as seen by the handler: a
`malformed` body is one on which `json.loads(message.body)` raises or
whose decoded value is not a dict (so `job.get('job')` raises); both
calls sit outside any `try`.  Otherwise the body decodes to an
envelope whose `job` key is `jobType` (`none` when absent). -/
inductive Body where
  | malformed : Body
  | envelope (jobType : Option String) (dl : DLJob) : Body

/-- Outcome of handling one message in the `joerd_server` loop:
`crashed` when an exception escapes the handler (killing the worker
loop), `done n` when handling finished with `n` calls to
`message.delete()`, `hung` when control is still inside `_download`'s
unpack retry loop after `fuel` attempts. -/
inductive HandlerResult where
  | crashed : HandlerResult
  | done (deletes : Nat) : HandlerResult
  | hung : HandlerResult
deriving DecidableEq, Repr

/-- One iteration of the `for message in queue.receive_messages()`
body (command.py lines 328-354): decode the body (uncaught on
failure); on job type `download` run the guarded block — rehydrate,
`_download`, then `message.delete()` — with every exception caught and
logged; on any other job type log a warning and continue. -/
def handle_message (b : Body) (fuel : Nat) : HandlerResult :=
  match b with
  | .malformed => .crashed
  | .envelope jobType dl =>
    if jobType = some "download" then
      if dl.hasData && dl.hasType && dl.knownSource && dl.rehydrateOk then
        match _download dl.env fuel with
        | none => .hung
        | some (.error _) => .done 0
        | some (.ok _) => .done 1
      else .done 0
    else .done 0

/-! ### Download resolution: `Joerd.list_downloads` and `Joerd.process`

A Source is modelled by its id and its `downloads_for` behaviour; a
tile is a number; a Download's identity is a number (per the data
model, its `output_file` path).  The `get_index()` and
`downloads_for()` calls the code performs are recorded as an event
trace, since claim C7 is about when they happen. -/

/-- A configured source, as the resolution loops see it:
`downloads_for tile` is the set of Downloads (by identity) the source
returns for the tile; the empty set models a falsy (empty) result. -/
structure Source where
  id : Nat
  downloads_for : Nat → Finset Nat

/-- A call made on a source during resolution. -/
inductive Call where
  | getIndex (sid : Nat) : Call
  | downloadsFor (sid : Nat) (tile : Nat) : Call
deriving DecidableEq, Repr

/-- One step of the `for source in self.sources.itervalues():
source.get_index()` loop (command.py lines 175-176): record the call. -/
def getIndexStep (acc : List Call) (s : Source) : List Call :=
  acc ++ [Call.getIndex s.id]

/-- One step of the inner resolution loop of `Joerd.list_downloads`
(lines 191-194): record the `downloads_for` call and, when the result
is truthy (non-empty), merge it into the download set. -/
def resolveStep (tile : Nat) (acc : List Call × Finset Nat) (s : Source) :
    List Call × Finset Nat :=
  let d := s.downloads_for tile
  (acc.1 ++ [Call.downloadsFor s.id tile],
   if d = ∅ then acc.2 else acc.2 ∪ d)

/-- `Joerd.list_downloads` (command.py lines 170-196): first the
`get_index` loop over every source, then the double loop over expanded
regions and sources collecting `downloads.update(d)` for each truthy
`d = source.downloads_for(tile)`.  Region expansion is performed by
the external Output collaborators, so the expanded region list is a
parameter.  Returns the call trace and the download set. -/
def list_downloads (sources : List Source) (tiles : List Nat) :
    List Call × Finset Nat :=
  tiles.foldl
    (fun acc tile => sources.foldl (resolveStep tile) acc)
    (sources.foldl getIndexStep [], (∅ : Finset Nat))

/-- One step of the per-tile source loop of `Joerd.process` (lines
217-221): record the `downloads_for` call; when the result is truthy,
merge it into the download set and append the source to the tile's
`tile_sources` list. -/
def processTileStep (tile : Nat) (acc : List Call × Finset Nat × List Source)
    (s : Source) : List Call × Finset Nat × List Source :=
  let d := s.downloads_for tile
  (acc.1 ++ [Call.downloadsFor s.id tile],
   if d = ∅ then acc.2 else (acc.2.1 ∪ d, acc.2.2 ++ [s]))

/-- The inner loop of `Joerd.process` for one tile (command.py lines
216-222), starting from the download set accumulated so far.  Returns
the call trace, the updated download set, and the tile's source
list. -/
def processTile (sources : List Source) (downloads : Finset Nat) (tile : Nat) :
    List Call × Finset Nat × List Source :=
  sources.foldl (processTileStep tile) ([], downloads, [])

/-- One step of the tile loop of `Joerd.process` (lines 212-223): run
the per-tile loop and record the tile's `set_sources` argument. -/
def processStep (sources : List Source)
    (acc : List Call × Finset Nat × List (Nat × List Source)) (tile : Nat) :
    List Call × Finset Nat × List (Nat × List Source) :=
  let r := processTile sources acc.2.1 tile
  (acc.1 ++ r.1, r.2.1, acc.2.2 ++ [(tile, r.2.2)])

/-- The download-resolution section of `Joerd.process` (command.py
lines 210-223): fold the per-tile loop over all generated tiles.
Note: `process` never calls `get_index` on any source.  Returns the
call trace, the final download set, and the `(tile, tile_sources)`
assignments. -/
def process (sources : List Source) (tiles : List Nat) :
    List Call × Finset Nat × List (Nat × List Source) :=
  tiles.foldl (processStep sources) ([], (∅ : Finset Nat), [])

/-- Union of the `downloads_for` results of a list of sources for one
tile, in list order (used to state what the resolution loops
accumulate). -/
def unionFor (tile : Nat) (sources : List Source) : Finset Nat :=
  sources.foldr (fun s acc => s.downloads_for tile ∪ acc) ∅

/-! ### Download planning in `Joerd.process` (lines 225-241) -/

/-- One resolved Download as the planning loop sees it: an instance
identity and its `output_file()` path (paths modelled as numbers). -/
structure Download where
  id : Nat
  output_file : Nat
deriving DecidableEq, Repr

/-- One step of the `for download in downloads` planning loop (lines
228-231): the output file joins `need_on_disk`, and the download is
appended to `need_to_download` only when `os.path.isfile` is false for
its output file. -/
def planStep (isfile : Nat → Bool) (acc : List Download × Finset Nat)
    (d : Download) : List Download × Finset Nat :=
  (if isfile d.output_file then acc.1 else acc.1 ++ [d],
   insert d.output_file acc.2)

/-- The planning loop of `Joerd.process` (command.py lines 226-231).
Returns `(need_to_download, need_on_disk)`. -/
def plan_downloads (downloads : List Download) (isfile : Nat → Bool) :
    List Download × Finset Nat :=
  downloads.foldl (planStep isfile) ([], ∅)

/-- The superfluous-list construction (command.py lines 237-241): the
existing files (concatenated over all sources, in order) that are not
in `need_on_disk`. -/
def superfluous_files (existing : List Nat) (need_on_disk : Finset Nat) :
    List Nat :=
  existing.filter (fun e => e ∉ need_on_disk)

/-! ### Chunk-size heuristic: `Joerd._chunksize` -/

/-- `Joerd._chunksize` (command.py lines 267-279): an explicitly
configured chunk size wins; otherwise `max(1, length / num_threads /
8)` with Python 2 floor division.  `none` models the
`ZeroDivisionError` raised when `num_threads` is zero (all quantities
are non-negative, so Nat division agrees with Python's floor
division). -/
def _chunksize (chunksize : Option Nat) (num_threads : Nat) (length : Nat) :
    Option Nat :=
  match chunksize with
  | some c => some c
  | none =>
    if num_threads = 0 then none
    else some (max 1 (length / num_threads / 8))

/-! ### Enqueuers: `joerd_enqueuer` and `joerd_enqueue_downloads`

The queue's behaviour is a parameter `sendFail : Nat → List Nat`
giving, for the `k`-th `send_messages` call, the list of failed-entry
ids the result reports (`[]` when the result has no truthy `Failed`
key). -/

/-- Splitting a list into consecutive chunks of size 10 (the batch
ceiling of the queue protocol). -/
def chunks10 {α : Type} : List α → List (List α)
  | [] => []
  | x :: rest => ((x :: rest).take 10) :: chunks10 ((x :: rest).drop 10)
termination_by l => l.length
decreasing_by
  simp only [List.length_drop, List.length_cons]
  omega

/-- State threaded through an enqueue loop: the partial batch being
filled, the batches sent so far, and the failure lists logged so
far. -/
structure EnqueueState (α : Type) where
  batch : List α
  sent : List (List α)
  logged : List (List Nat)

/-- The `if 'Failed' in result and result['Failed']:` logging step: a
non-empty failure list is logged, an empty one is not. -/
def logFail (logged : List (List Nat)) (fails : List Nat) : List (List Nat) :=
  if fails = [] then logged else logged ++ [fails]

/-- One step of the `for r in jobs` loop of `joerd_enqueuer` (lines
380-387): when the current batch already holds 10 entries it is sent —
its reported failures logged — and the job starts a fresh batch;
otherwise the job is appended to the current batch. -/
def enqueuerStep {α : Type} (sendFail : Nat → List Nat)
    (st : EnqueueState α) (r : α) : EnqueueState α :=
  if st.batch.length = 10 then
    ⟨[r], st.sent ++ [st.batch], logFail st.logged (sendFail st.sent.length)⟩
  else ⟨st.batch ++ [r], st.sent, st.logged⟩

/-- `joerd_enqueuer` (command.py lines 377-391): before appending each
job, a full batch of 10 is sent and its reported failures logged; the
final partial batch is sent after the loop WITHOUT inspecting the
result for failures (line 390).  Returns the batches sent, in order,
and the failure lists logged. -/
def joerd_enqueuer {α : Type} (jobs : List α) (sendFail : Nat → List Nat) :
    List (List α) × List (List Nat) :=
  let st := jobs.foldl (enqueuerStep sendFail) ⟨[], [], []⟩
  if st.batch.length > 0 then (st.sent ++ [st.batch], st.logged)
  else (st.sent, st.logged)

/-- One step of the `for d in downloads` loop of
`joerd_enqueue_downloads` (lines 416-426): the job is appended first,
and a batch reaching 10 entries is sent, its reported failures
logged. -/
def enqueueDownloadsStep {α : Type} (sendFail : Nat → List Nat)
    (st : EnqueueState α) (d : α) : EnqueueState α :=
  let batch := st.batch ++ [d]
  if batch.length = 10 then
    ⟨[], st.sent ++ [batch], logFail st.logged (sendFail st.sent.length)⟩
  else ⟨batch, st.sent, st.logged⟩

/-- `joerd_enqueue_downloads` (command.py lines 413-431): each job is
appended first; a batch reaching 10 is sent and its reported failures
logged; the final partial batch is sent after the loop and its
failures are logged too (lines 428-431). -/
def joerd_enqueue_downloads {α : Type} (downloads : List α)
    (sendFail : Nat → List Nat) : List (List α) × List (List Nat) :=
  let st := downloads.foldl (enqueueDownloadsStep sendFail) ⟨[], [], []⟩
  if st.batch.length > 0 then
    (st.sent ++ [st.batch], logFail st.logged (sendFail st.sent.length))
  else (st.sent, st.logged)

/-- The failure lists a run of consecutive sends numbered `start`,
`start+1`, ... (`count` of them) gets logged: the non-empty
`sendFail` results, in send order. -/
def failuresFrom (sendFail : Nat → List Nat) (start : Nat) :
    Nat → List (List Nat)
  | 0 => []
  | n + 1 =>
    (if sendFail start = [] then [] else [sendFail start]) ++
      failuresFrom sendFail (start + 1) n

/-! ## Lemmas about the eviction walk -/

/-- The free space on exit from the walk is the initial free space
plus everything reclaimed. -/
theorem evictLoop_remaining_eq (needed : Nat) (l : List (Option Nat)) :
    ∀ remaining : Nat,
      (evictLoop needed remaining l).1 =
        remaining + (evictLoop needed remaining l).2.sum := by
  induction l with
  | nil => intro remaining; simp [evictLoop]
  | cons e rest ih =>
    intro remaining
    by_cases hle : needed ≤ remaining
    · simp [evictLoop, hle]
    · cases e with
      | none => simpa [evictLoop, hle] using ih remaining
      | some sz =>
        have h := ih (remaining + sz)
        simp [evictLoop, hle]
        omega

/-- The walk reaches the target iff the live entries can cover the
shortfall. -/
theorem evictLoop_reaches (needed : Nat) (l : List (Option Nat)) :
    ∀ remaining : Nat,
      needed ≤ (evictLoop needed remaining l).1 ↔
        needed ≤ remaining + liveSum l := by
  induction l with
  | nil => intro remaining; simp [evictLoop, liveSum, liveSizes]
  | cons e rest ih =>
    intro remaining
    by_cases hle : needed ≤ remaining
    · simp only [evictLoop, if_pos hle]
      constructor
      · intro _
        have : liveSum (e :: rest) = liveSum (e :: rest) := rfl
        omega
      · intro _; exact hle
    · cases e with
      | none =>
        have h := ih remaining
        simpa [evictLoop, hle, liveSum, liveSizes, List.filterMap_cons] using h
      | some sz =>
        have h := ih (remaining + sz)
        simp [evictLoop, hle, liveSum, liveSizes, List.filterMap_cons] at h ⊢
        omega

/-- Every deletion the walk performs happens strictly before the
target is reached: before the `k`-th deletion the reclaimed space so
far was still short of `needed`. -/
theorem evictLoop_early_stop (needed : Nat) (l : List (Option Nat)) :
    ∀ remaining k, k < (evictLoop needed remaining l).2.length →
      remaining + ((evictLoop needed remaining l).2.take k).sum < needed := by
  induction l with
  | nil => intro remaining k hk; simp [evictLoop] at hk
  | cons e rest ih =>
    intro remaining k hk
    by_cases hle : needed ≤ remaining
    · simp [evictLoop, hle] at hk
    · cases e with
      | none =>
        simp only [evictLoop, if_neg hle] at hk ⊢
        exact ih remaining k hk
      | some sz =>
        simp only [evictLoop, if_neg hle] at hk ⊢
        cases k with
        | zero => simpa using Nat.lt_of_not_le hle
        | succ k =>
          simp only [List.length_cons] at hk
          have h := ih (remaining + sz) k (by omega)
          simp [List.take_succ_cons]
          omega

/-- The walk deletes exactly a front segment of the live entries, in
list order. -/
theorem evictLoop_deleted_front (needed : Nat) (l : List (Option Nat)) :
    ∀ remaining : Nat,
      (evictLoop needed remaining l).2 =
        (liveSizes l).take (evictLoop needed remaining l).2.length := by
  induction l with
  | nil => intro remaining; simp [evictLoop]
  | cons e rest ih =>
    intro remaining
    by_cases hle : needed ≤ remaining
    · simp [evictLoop, hle]
    · cases e with
      | none =>
        simpa [evictLoop, hle, liveSizes, List.filterMap_cons] using ih remaining
      | some sz =>
        have h := ih (remaining + sz)
        simp [evictLoop, hle, liveSizes, List.filterMap_cons] at h ⊢
        exact h

/-! ## Claim C1 -/

/-- **C1, counterexample.**  The claim "for every invocation,
`_make_space` returns successfully iff `remaining + S >= needed`" is
false: with superfluous list `[live file of size 5, cleared slot]`,
`needed = 1` and `remaining = 0`, we have `remaining + S = 5 >= 1`,
yet the guard `len(superfluous) and not superfluous[-1]` fires and the
routine raises without reclaiming anything. -/
theorem make_space_guard_blocks_reclaim :
    ¬ ((_make_space [some 5, none] 1 0).error = none ↔
        1 ≤ 0 + liveSum [some 5, none]) := by
  decide

/-- **C1, amended.**  Whenever the guard does not fire (the
superfluous list is empty or its last slot still holds a live path),
`_make_space` returns successfully iff `remaining + S ≥ needed` where
`S` is the total size of the live entries; the free space on exit is
the initial free space plus everything deleted; the deleted files are
a front segment of the live entries in list order; and every deletion
happened strictly before the target was reached (early stop — no file
is deleted once `remaining ≥ needed`). -/
theorem make_space_evicts_iff_reclaimable
    (superfluous : List (Option Nat)) (needed remaining : Nat)
    (h : superfluous.getLast? ≠ some none) :
    ((_make_space superfluous needed remaining).error = none ↔
      needed ≤ remaining + liveSum superfluous) ∧
    (_make_space superfluous needed remaining).remaining =
      remaining + ((_make_space superfluous needed remaining).deleted).sum ∧
    (_make_space superfluous needed remaining).deleted =
      (liveSizes superfluous).take
        ((_make_space superfluous needed remaining).deleted).length ∧
    ∀ k, k < ((_make_space superfluous needed remaining).deleted).length →
      remaining +
          (((_make_space superfluous needed remaining).deleted).take k).sum <
        needed := by
  have h1 := evictLoop_remaining_eq needed superfluous remaining
  have h2 := evictLoop_reaches needed superfluous remaining
  have h3 := evictLoop_deleted_front needed superfluous remaining
  have h4 := evictLoop_early_stop needed superfluous remaining
  by_cases hlt : (evictLoop needed remaining superfluous).1 < needed
  · simp only [_make_space, if_neg h, if_pos hlt]
    refine ⟨?_, h1, h3, h4⟩
    simp only [Option.some_ne_none, false_iff]
    intro hR
    exact absurd (h2.mpr hR) (Nat.not_le_of_lt hlt)
  · simp only [_make_space, if_neg h, if_neg hlt]
    refine ⟨?_, h1, h3, h4⟩
    simp only [true_iff]
    exact h2.mp (Nat.le_of_not_lt hlt)

/-- **C1, witness** for the amended theorem at the concrete input
`superfluous = [live 5]`, `needed = 3`, `remaining = 0`. -/
theorem make_space_evicts_iff_reclaimable_witness :
    (([some 5] : List (Option Nat)).getLast? ≠ some none) ∧
    ((_make_space [some 5] 3 0).error = none ↔ 3 ≤ 0 + liveSum [some 5]) :=
  ⟨by decide, (make_space_evicts_iff_reclaimable [some 5] 3 0 (by decide)).1⟩

/-! ## Claim C4 -/

/-- **C4, counterexample.**  The claim "with an empty superfluous list
`_make_space` fails immediately for every `needed` and `remaining`" is
false: with `needed = 0` and `remaining = 0` the guard does not fire
(`len(superfluous)` is 0, so the condition is falsy), the walk is
empty, the final check `remaining < needed` is false, and the routine
returns successfully. -/
theorem make_space_empty_succeeds_at_zero :
    (_make_space ([] : List (Option Nat)) 0 0).error = none := by
  decide

/-- **C4, amended.**  With an empty superfluous list `_make_space`
never attempts a deletion, and it fails iff `remaining < needed` — in
which case it raises the final `Not enough space` error carrying the
shortfall, not the `nothing superfluous` guard error (the guard
condition `len(superfluous) and not superfluous[-1]` is falsy for an
empty list). -/
theorem make_space_empty_list (needed remaining : Nat) :
    (_make_space [] needed remaining).deleted = [] ∧
    (_make_space [] needed remaining).error =
      (if remaining < needed then some (SpaceError.notEnough (needed - remaining))
       else none) := by
  by_cases hlt : remaining < needed
  · simp [_make_space, evictLoop, hlt]
  · simp [_make_space, evictLoop, hlt]

/-! ## The queue worker's download branch -/

/-- Case analysis of the `download` branch of the message handler: it
never lets an exception escape (every outcome is `done 0`, `done 1` or
`hung`), and it calls `message.delete()` exactly once iff the whole
job succeeded — data and type present, source known, rehydrate ok,
every fetch ok, some unpack attempt within `fuel` succeeded, and the
store confirms the output file exists. -/
theorem handle_download_cases (dl : DLJob) (fuel : Nat) :
    (handle_message (.envelope (some "download") dl) fuel = .done 0 ∨
     handle_message (.envelope (some "download") dl) fuel = .done 1 ∨
     handle_message (.envelope (some "download") dl) fuel = .hung) ∧
    (handle_message (.envelope (some "download") dl) fuel = .done 1 ↔
      (dl.hasData ∧ dl.hasType ∧ dl.knownSource ∧ dl.rehydrateOk ∧
       dl.env.fetch_ok ∧ (firstUnpackSuccess dl.env fuel).isSome ∧
       dl.env.exists_after)) := by
  simp only [handle_message, if_pos rfl]
  by_cases hpre : (dl.hasData && dl.hasType && dl.knownSource && dl.rehydrateOk) = true
  · rw [if_pos hpre]
    simp only [Bool.and_eq_true] at hpre
    obtain ⟨⟨⟨h1, h2⟩, h3⟩, h4⟩ := hpre
    by_cases hf : dl.env.fetch_ok
    · cases hs : firstUnpackSuccess dl.env fuel with
      | none => simp [_download, hf, hs, h1, h2, h3, h4]
      | some k =>
        by_cases he : dl.env.exists_after
        · simp [_download, hf, hs, he, h1, h2, h3, h4]
        · simp [_download, hf, hs, he, h1, h2, h3, h4]
    · simp [_download, hf, h1, h2, h3, h4]
  · rw [if_neg hpre]
    refine ⟨Or.inl rfl, Iff.intro (fun hcontra => by simp at hcontra) ?_⟩
    rintro ⟨h1, h2, h3, h4, -⟩
    exact absurd (by simp [h1, h2, h3, h4]) hpre

/-! ## Claim C2 -/

/-- **C2.**  In the queue worker loop, a download job whose execution
raises never triggers `message.delete()`, and a download job that
completes successfully — including the `store.exists(output_file)`
check — triggers exactly one `message.delete()`: the handler performs
exactly one delete iff the whole job (data present, type present,
source known, rehydrate, every fetch, some unpack attempt, existence
check) succeeded, performs zero deletes in every other outcome, and in
particular deletion happens only after success. -/
theorem handle_download_delete_iff_success (dl : DLJob) (fuel : Nat) :
    (handle_message (.envelope (some "download") dl) fuel = .done 1 ↔
      (dl.hasData ∧ dl.hasType ∧ dl.knownSource ∧ dl.rehydrateOk ∧
       dl.env.fetch_ok ∧ (firstUnpackSuccess dl.env fuel).isSome ∧
       dl.env.exists_after)) ∧
    ∀ n, handle_message (.envelope (some "download") dl) fuel = .done n →
      n = 0 ∨ n = 1 := by
  obtain ⟨hcases, hiff⟩ := handle_download_cases dl fuel
  refine ⟨hiff, ?_⟩
  intro n hn
  rcases hcases with h | h | h <;> rw [hn] at h
  · exact Or.inl (by cases h; rfl)
  · exact Or.inr (by cases h; rfl)
  · cases h

/-- **C2, witness** for the amended theorem at a concrete fully
successful job: every precondition holds and the handler deletes the
message exactly once. -/
theorem handle_download_delete_iff_success_witness :
    handle_message
        (.envelope (some "download")
          ⟨true, true, true, true, ⟨true, fun _ => true, true⟩⟩) 1 =
      .done 1 :=
  (handle_download_delete_iff_success
      ⟨true, true, true, true, ⟨true, fun _ => true, true⟩⟩ 1).1.mpr
    (by decide)

/-! ## Claim C3 -/

/-- **C3** (code bug).  The claim says `_download` logs and stops when
`unpack` fails, terminating for every input.  The code does not: the
`while True` loop (command.py lines 102-111) catches the unpack
exception, logs it, and — with the `_make_space` call commented out —
falls through to the next iteration, so for a Download whose unpack
raises on every attempt `_download` re-enters `unpack` forever: after
any number `fuel` of attempts it has still not returned. -/
theorem download_unpack_failure_loops_forever (fuel : Nat)
    (exists_after : Bool) :
    _download ⟨true, fun _ => false, exists_after⟩ fuel = none := by
  have hfind : firstUnpackSuccess ⟨true, fun _ => false, exists_after⟩ fuel
      = none := by
    simp [firstUnpackSuccess]
  simp [_download, hfind]

/-! ## Claim C5 -/

/-- **C5, counterexample.**  A message whose body is malformed (either
`json.loads(message.body)` raises, or the decoded value is not a dict
so `job.get('job')` raises) crashes the worker: both calls sit outside
any `try` (command.py lines 330-331), so the exception escapes the
handler and kills the `joerd_server` loop, contradicting the claim
that the worker never crashes on a malformed message. -/
theorem malformed_body_crashes_worker :
    handle_message Body.malformed 0 = HandlerResult.crashed := rfl

/-- **C5, amended.**  For every message whose body decodes to a dict
envelope, the worker does not crash: an unknown (or missing) job kind
is logged and the message left un-deleted, and every failure inside a
download job is caught and logged; but a message whose body is not
decodable as a job envelope raises outside the `try' and crashes the
worker loop.  (A download job whose unpack fails persistently neither
crashes nor continues — the handler hangs in the retry loop.) -/
theorem handle_envelope_never_crashes (jobType : Option String) (dl : DLJob)
    (fuel : Nat) :
    handle_message (.envelope jobType dl) fuel ≠ HandlerResult.crashed ∧
    (jobType = some "download" ∨
      handle_message (.envelope jobType dl) fuel = HandlerResult.done 0) := by
  by_cases hjt : jobType = some "download"
  · subst hjt
    obtain ⟨hcases, -⟩ := handle_download_cases dl fuel
    refine ⟨?_, Or.inl rfl⟩
    rcases hcases with h | h | h <;> rw [h] <;> intro hcontra <;> cases hcontra
  · have h : handle_message (.envelope jobType dl) fuel = .done 0 := by
      simp only [handle_message, if_neg hjt]
    exact ⟨(by rw [h]; intro hcontra; cases hcontra), Or.inr h⟩

/-! ## Lemmas about the resolution loops -/

theorem unionFor_nil (tile : Nat) : unionFor tile [] = ∅ := rfl

theorem unionFor_cons (tile : Nat) (s : Source) (rest : List Source) :
    unionFor tile (s :: rest) = s.downloads_for tile ∪ unionFor tile rest := rfl

/-- Sources with an empty `downloads_for` result contribute nothing to
the union, so the union over the non-empty-returning sources is the
union over all of them. -/
theorem unionFor_filter (tile : Nat) (sources : List Source) :
    unionFor tile (sources.filter (fun s => s.downloads_for tile ≠ ∅)) =
      unionFor tile sources := by
  induction sources with
  | nil => rfl
  | cons s rest ih =>
    rw [List.filter_cons]
    by_cases hd : s.downloads_for tile = ∅
    · rw [if_neg (by simp [hd]), ih, unionFor_cons, hd, Finset.empty_union]
    · rw [if_pos (by simp [hd]), unionFor_cons, unionFor_cons, ih]

/-- The `get_index` loop of `list_downloads` records one `getIndex`
call per source, in iteration order. -/
theorem foldl_getIndexStep (l : List Source) :
    ∀ acc : List Call,
      l.foldl getIndexStep acc = acc ++ l.map (fun s => Call.getIndex s.id) := by
  induction l with
  | nil => intro acc; simp
  | cons s rest ih => intro acc; simp [List.foldl_cons, getIndexStep, ih]

/-- Trace of the inner source loop of `list_downloads`: one
`downloadsFor` call per source, in iteration order. -/
theorem foldl_resolveStep_fst (tile : Nat) (sources : List Source) :
    ∀ acc : List Call × Finset Nat,
      (sources.foldl (resolveStep tile) acc).1 =
        acc.1 ++ sources.map (fun s => Call.downloadsFor s.id tile) := by
  induction sources with
  | nil => intro acc; simp
  | cons s rest ih =>
    intro acc
    simp only [List.foldl_cons]
    rw [ih]
    simp [resolveStep]

/-- Trace of the double loop of `list_downloads`. -/
theorem foldl_outer_fst (sources : List Source) (tiles : List Nat) :
    ∀ acc : List Call × Finset Nat,
      (tiles.foldl (fun acc tile => sources.foldl (resolveStep tile) acc)
          acc).1 =
        acc.1 ++
          tiles.bind
            (fun t => sources.map (fun s => Call.downloadsFor s.id t)) := by
  induction tiles with
  | nil => intro acc; simp
  | cons t rest ih =>
    intro acc
    simp only [List.foldl_cons]
    rw [ih, foldl_resolveStep_fst]
    simp [List.cons_bind]

/-- Full characterisation of the per-tile source loop of `process`:
the trace is one `downloadsFor` call per source; the download set
gains the union of the results; the tile's source list gains exactly
the sources whose result was non-empty, in iteration order. -/
theorem foldl_processTileStep (tile : Nat) (sources : List Source) :
    ∀ acc : List Call × Finset Nat × List Source,
      sources.foldl (processTileStep tile) acc =
        (acc.1 ++ sources.map (fun s => Call.downloadsFor s.id tile),
         acc.2.1 ∪ unionFor tile sources,
         acc.2.2 ++ sources.filter (fun s => s.downloads_for tile ≠ ∅)) := by
  induction sources with
  | nil => intro acc; simp [unionFor_nil]
  | cons s rest ih =>
    intro acc
    simp only [List.foldl_cons]
    rw [ih]
    by_cases hd : s.downloads_for tile = ∅
    · simp [processTileStep, hd, unionFor_cons, List.filter_cons]
    · simp [processTileStep, hd, unionFor_cons, List.filter_cons,
        Finset.union_assoc]

/-- Trace of the tile loop of `process`: only `downloadsFor` calls,
tile by tile. -/
theorem foldl_processStep_fst (sources : List Source) (tiles : List Nat) :
    ∀ acc : List Call × Finset Nat × List (Nat × List Source),
      (tiles.foldl (processStep sources) acc).1 =
        acc.1 ++
          tiles.bind
            (fun t => sources.map (fun s => Call.downloadsFor s.id t)) := by
  induction tiles with
  | nil => intro acc; simp
  | cons t rest ih =>
    intro acc
    simp only [List.foldl_cons]
    rw [ih]
    simp only [processStep, processTile]
    rw [foldl_processTileStep]
    simp [List.cons_bind]

/-- Every `set_sources` assignment recorded by the tile loop of
`process` is the filter of the sources by non-empty `downloads_for`
at that tile. -/
theorem foldl_processStep_assignments (sources : List Source)
    (tiles : List Nat) :
    ∀ acc : List Call × Finset Nat × List (Nat × List Source),
      (∀ p ∈ acc.2.2,
        p.2 = sources.filter (fun s => s.downloads_for p.1 ≠ ∅)) →
      ∀ p ∈ (tiles.foldl (processStep sources) acc).2.2,
        p.2 = sources.filter (fun s => s.downloads_for p.1 ≠ ∅) := by
  induction tiles with
  | nil => intro acc h; exact h
  | cons t rest ih =>
    intro acc h
    simp only [List.foldl_cons]
    apply ih
    intro p hp
    simp only [processStep] at hp
    rcases List.mem_append.mp hp with hp | hp
    · exact h p hp
    · rw [List.mem_singleton] at hp
      subst hp
      dsimp only
      rw [processTile, foldl_processTileStep]
      rfl

/-! ## Claim C6 -/

/-- **C6.**  For every tile, the per-tile loop of `Joerd.process`
merges into the global download set exactly the union of
`downloads_for(tile)` over the sources returning a non-empty result,
and sets the tile's source list to exactly those sources (in
configuration order); sources returning an empty result are excluded.
Moreover every `(tile, tile_sources)` assignment recorded by the full
tile loop has this form. -/
theorem process_tile_sources_and_downloads (sources : List Source)
    (downloads : Finset Nat) (tile : Nat) (tiles : List Nat) :
    (processTile sources downloads tile).2.2 =
      sources.filter (fun s => s.downloads_for tile ≠ ∅) ∧
    (processTile sources downloads tile).2.1 =
      downloads ∪
        unionFor tile (sources.filter (fun s => s.downloads_for tile ≠ ∅)) ∧
    ∀ p ∈ (process sources tiles).2.2,
      p.2 = sources.filter (fun s => s.downloads_for p.1 ≠ ∅) := by
  refine ⟨?_, ?_, ?_⟩
  · rw [processTile, foldl_processTileStep]
    rfl
  · rw [processTile, foldl_processTileStep, unionFor_filter]
  · exact foldl_processStep_assignments sources tiles ([], ∅, [])
      (by intro p hp; cases hp)

/-! ## Claim C7 -/

/-- **C7, counterexample.**  The claim says `get_index()` is called
exactly once per source in both resolution paths, but `Joerd.process`
never calls `get_index` at all: with one configured source (id 0) and
one generated tile, the whole call trace of the resolution section of
`process` is a single `downloads_for` call, with no `getIndex`
anywhere. -/
theorem process_trace_no_get_index :
    (process [⟨0, fun x => {x}⟩] [7]).1 = [Call.downloadsFor 0 7] ∧
    Call.getIndex 0 ∉ (process [⟨0, fun x => {x}⟩] [7]).1 := by
  decide

/-- **C7, amended.**  In `Joerd.list_downloads` the call trace is
exactly: one `getIndex` call per configured source (in order),
followed by all the `downloads_for` queries — so each source's index
is fetched exactly once (the count of `getIndex sid` equals the
number of configured sources with that id), before any `downloads_for`
query.  In the `Joerd.process` path, by contrast, `get_index` is never
called on any source. -/
theorem get_index_trace (sources : List Source) (tiles : List Nat)
    (sid : Nat) :
    (list_downloads sources tiles).1 =
      sources.map (fun s => Call.getIndex s.id) ++
        tiles.bind (fun t => sources.map (fun s => Call.downloadsFor s.id t)) ∧
    (list_downloads sources tiles).1.count (Call.getIndex sid) =
      (sources.map Source.id).count sid ∧
    Call.getIndex sid ∉ (process sources tiles).1 := by
  have hinj : Function.Injective Call.getIndex := by
    intro a b hab
    injection hab
  have htrace : (list_downloads sources tiles).1 =
      sources.map (fun s => Call.getIndex s.id) ++
        tiles.bind (fun t => sources.map (fun s => Call.downloadsFor s.id t)) := by
    rw [list_downloads, foldl_outer_fst, foldl_getIndexStep]
    simp
  have hbind : Call.getIndex sid ∉
      tiles.bind (fun t => sources.map (fun s => Call.downloadsFor s.id t)) := by
    intro hmem
    rw [List.mem_bind] at hmem
    obtain ⟨t, -, hmem⟩ := hmem
    rw [List.mem_map] at hmem
    obtain ⟨s, -, heq⟩ := hmem
    cases heq
  refine ⟨htrace, ?_, ?_⟩
  · rw [htrace, List.count_append]
    have h1 : sources.map (fun s => Call.getIndex s.id) =
        (sources.map Source.id).map Call.getIndex := by
      simp [List.map_map, Function.comp]
    rw [h1, List.count_map_of_injective _ _ hinj,
      List.count_eq_zero.mpr hbind]
    omega
  · rw [process, foldl_processStep_fst]
    exact hbind

/-! ## Claim C8 -/

/-- **C8.**  When no chunk size is explicitly configured,
`Joerd._chunksize` computes `max(1, length / num_threads / 8)` under
integer (floor) division — Python 2 `/` on non-negative ints agrees
with `Nat` division; in particular for 4 workers and 100 jobs the
result is `max(1, 100 / 4 / 8) = 3`. -/
theorem chunksize_heuristic (length num_threads : Nat)
    (h : 0 < num_threads) :
    _chunksize none num_threads length =
      some (max 1 (length / num_threads / 8)) ∧
    _chunksize none 4 100 = some 3 := by
  have hne : num_threads ≠ 0 := Nat.pos_iff_ne_zero.mp h
  exact ⟨by simp [_chunksize, hne], rfl⟩

/-- **C8, witness** for the heuristic at 4 workers and 100 jobs. -/
theorem chunksize_heuristic_witness :
    0 < 4 ∧ _chunksize none 4 100 = some (max 1 (100 / 4 / 8)) :=
  ⟨by decide, (chunksize_heuristic 100 4 (by decide)).1⟩

/-! ## Claim C10 -/

/-- The planning loop, characterised: appended downloads are exactly
those whose output file is absent from disk, in iteration order, and
the needed set gains every output file. -/
theorem foldl_planStep (isfile : Nat → Bool) (downloads : List Download) :
    ∀ acc : List Download × Finset Nat,
      downloads.foldl (planStep isfile) acc =
        (acc.1 ++ downloads.filter (fun d => !isfile d.output_file),
         acc.2 ∪ (downloads.map Download.output_file).toFinset) := by
  induction downloads with
  | nil => intro acc; simp
  | cons d rest ih =>
    intro acc
    simp only [List.foldl_cons]
    rw [ih]
    by_cases hf : isfile d.output_file
    · simp [planStep, hf, List.filter_cons, List.toFinset_cons,
        Finset.union_insert, Finset.insert_union]
    · simp [planStep, hf, List.filter_cons, List.toFinset_cons,
        Finset.union_insert, Finset.insert_union]

/-- **C10.**  In the local `process` path, a resolved Download is
scheduled for fetching (appended to `need_to_download`) iff its
`output_file()` is not already a file on disk at planning time —
present Downloads are silently skipped — while every Download's output
file, present or not, joins `need_on_disk`, and consequently no
resolved Download's output file ever appears in the superfluous list
built from it (which is what protects those files from eviction). -/
theorem plan_downloads_spec (downloads : List Download) (isfile : Nat → Bool)
    (existing : List Nat) :
    (plan_downloads downloads isfile).1 =
      downloads.filter (fun d => !isfile d.output_file) ∧
    (plan_downloads downloads isfile).2 =
      (downloads.map Download.output_file).toFinset ∧
    ∀ d ∈ downloads,
      d.output_file ∉
        superfluous_files existing (plan_downloads downloads isfile).2 := by
  have hplan := foldl_planStep isfile downloads ([], ∅)
  rw [plan_downloads, hplan]
  refine ⟨by simp, by simp, ?_⟩
  intro d hd hmem
  rw [superfluous_files, List.mem_filter] at hmem
  have hneed : d.output_file ∈
      ((∅ : Finset Nat) ∪ (downloads.map Download.output_file).toFinset) := by
    simp only [Finset.empty_union, List.mem_toFinset]
    exact List.mem_map_of_mem Download.output_file hd
  simp only [decide_eq_true_eq] at hmem
  exact hmem.2 hneed

/-! ## Lemmas about the chunking of batches -/

theorem chunks10_flatten {α : Type} (l : List α) : (chunks10 l).flatten = l := by
  induction l using chunks10.induct with
  | case1 => rw [chunks10]; rfl
  | case2 x rest ih =>
    rw [chunks10, List.flatten_cons, ih]
    exact List.take_append_drop 10 (x :: rest)

theorem chunks10_sizes {α : Type} (l : List α) :
    ∀ b ∈ chunks10 l, b.length ≤ 10 := by
  induction l using chunks10.induct with
  | case1 => intro b hb; rw [chunks10] at hb; cases hb
  | case2 x rest ih =>
    intro b hb
    rw [chunks10] at hb
    rcases List.mem_cons.mp hb with hb | hb
    · subst hb
      rw [List.length_take]
      omega
    · exact ih b hb

theorem chunks10_length {α : Type} (l : List α) :
    (chunks10 l).length = (l.length + 9) / 10 := by
  induction l using chunks10.induct with
  | case1 => simp [chunks10]
  | case2 x rest ih =>
    rw [chunks10, List.length_cons, ih]
    simp only [List.length_drop, List.length_cons]
    omega

/-- A non-empty list of at most 10 elements forms a single chunk. -/
theorem chunks10_short {α : Type} (l : List α) (h0 : l ≠ [])
    (hle : l.length ≤ 10) : chunks10 l = [l] := by
  cases l with
  | nil => exact absurd rfl h0
  | cons x rest =>
    rw [chunks10, List.take_of_length_le hle, List.drop_eq_nil_of_le hle,
      chunks10]

/-- Splitting a list that starts with a full batch of 10. -/
theorem chunks10_full_front {α : Type} (b t : List α) (hb : b.length = 10) :
    chunks10 (b ++ t) = b :: chunks10 t := by
  have h0 : b ++ t ≠ [] := by
    intro hcontra
    rw [List.append_eq_nil] at hcontra
    rw [hcontra.1] at hb
    cases hb
  have heq : chunks10 (b ++ t) =
      ((b ++ t).take 10) :: chunks10 ((b ++ t).drop 10) := by
    cases hbt : b ++ t with
    | nil => exact absurd hbt h0
    | cons x rest => rw [← hbt, hbt, chunks10, ← hbt]
  rw [heq, ← hb, List.take_left, List.drop_left]

theorem chunks10_pos {α : Type} (l : List α) (h0 : l ≠ []) :
    0 < (chunks10 l).length := by
  cases l with
  | nil => exact absurd rfl h0
  | cons x rest => rw [chunks10]; simp

/-- Unfolding equation of `chunks10` for a non-empty list. -/
theorem chunks10_eq_cons {α : Type} (l : List α) (h0 : l ≠ []) :
    chunks10 l = l.take 10 :: chunks10 (l.drop 10) := by
  cases l with
  | nil => exact absurd rfl h0
  | cons x rest => rw [chunks10]

/-- The 25-element instance: batch sizes 10, 10, 5. -/
theorem chunks10_range25 :
    (chunks10 (List.range 25)).map List.length = [10, 10, 5] := by
  have h1 := chunks10_eq_cons (List.range 25) (by simp)
  have h2 := chunks10_eq_cons ((List.range 25).drop 10)
    (by apply List.ne_nil_of_length_pos; simp)
  have h3 := chunks10_short (((List.range 25).drop 10).drop 10)
    (by apply List.ne_nil_of_length_pos; simp) (by simp)
  rw [h1, h2, h3]
  simp

/-! ## Lemmas about the enqueue loops -/

theorem logFail_eq (logged : List (List Nat)) (fails : List Nat) :
    logFail logged fails =
      logged ++ (if fails = [] then [] else [fails]) := by
  rw [logFail]
  split
  · simp
  · rfl

/-- Gluing step for the logged-failures bookkeeping: logging send
`m`'s failures and then the failures of the next `k` sends is the same
as logging the failures of `k + 1` consecutive sends from `m`. -/
theorem logFail_failuresFrom (logged : List (List Nat))
    (sendFail : Nat → List Nat) (m k : Nat) :
    logFail logged (sendFail m) ++ failuresFrom sendFail (m + 1) k =
      logged ++ failuresFrom sendFail m (k + 1) := by
  rw [logFail_eq, failuresFrom, List.append_assoc]

/-- Invariant of the `joerd_enqueuer` loop: starting from any state
whose partial batch holds at most 10 entries, running the loop and
then the final flush sends exactly the ≤-10-sized chunks of
(pending batch ++ remaining jobs), in order, and logs exactly the
non-empty failure results of all sends except the final flush (whose
result the code never inspects). -/
theorem foldl_enqueuerStep {α : Type} (sendFail : Nat → List Nat)
    (jobs : List α) :
    ∀ st : EnqueueState α, st.batch.length ≤ 10 →
      ((if 0 < (jobs.foldl (enqueuerStep sendFail) st).batch.length
        then (jobs.foldl (enqueuerStep sendFail) st).sent ++
          [(jobs.foldl (enqueuerStep sendFail) st).batch]
        else (jobs.foldl (enqueuerStep sendFail) st).sent) =
        st.sent ++ chunks10 (st.batch ++ jobs)) ∧
      (jobs.foldl (enqueuerStep sendFail) st).logged =
        st.logged ++ failuresFrom sendFail st.sent.length
          ((chunks10 (st.batch ++ jobs)).length - 1) := by
  induction jobs with
  | nil =>
    intro st hle
    simp only [List.foldl_nil, List.append_nil]
    by_cases hb : st.batch = []
    · rw [hb, chunks10]
      simp [failuresFrom, hb]
    · rw [chunks10_short st.batch hb hle]
      have hpos : 0 < st.batch.length := List.length_pos.mpr hb
      rw [if_pos hpos]
      simp [failuresFrom]
  | cons j rest ih =>
    intro st hle
    simp only [List.foldl_cons]
    by_cases h10 : st.batch.length = 10
    · rw [show enqueuerStep sendFail st j =
          ⟨[j], st.sent ++ [st.batch],
            logFail st.logged (sendFail st.sent.length)⟩ from by
        rw [enqueuerStep, if_pos h10]]
      obtain ⟨ihA, ihB⟩ := ih ⟨[j], st.sent ++ [st.batch],
        logFail st.logged (sendFail st.sent.length)⟩ (by simp)
      dsimp only at ihA ihB
      rw [List.singleton_append] at ihA ihB
      rw [chunks10_full_front st.batch (j :: rest) h10]
      have hpos : 0 < (chunks10 (j :: rest)).length :=
        chunks10_pos (j :: rest) (by simp)
      constructor
      · rw [ihA]
        simp
      · rw [ihB]
        simp only [List.length_append, List.length_singleton,
          List.length_cons, List.length_nil, Nat.zero_add,
          Nat.add_sub_cancel]
        obtain ⟨k, hk⟩ : ∃ k, (chunks10 (j :: rest)).length = k + 1 :=
          ⟨(chunks10 (j :: rest)).length - 1, by omega⟩
        rw [hk, Nat.add_sub_cancel, logFail_failuresFrom]
    · rw [show enqueuerStep sendFail st j =
          ⟨st.batch ++ [j], st.sent, st.logged⟩ from by
        rw [enqueuerStep, if_neg h10]]
      obtain ⟨ihA, ihB⟩ := ih ⟨st.batch ++ [j], st.sent, st.logged⟩
        (by simp only [List.length_append, List.length_singleton]; omega)
      dsimp only at ihA ihB
      rw [List.append_assoc, List.singleton_append] at ihA ihB
      exact ⟨ihA, ihB⟩

/-- Invariant of the `joerd_enqueue_downloads` loop: same chunking,
but the final flush's failures are logged as well, so all sends get
their non-empty failure results logged. -/
theorem foldl_enqueueDownloadsStep {α : Type} (sendFail : Nat → List Nat)
    (downloads : List α) :
    ∀ st : EnqueueState α, st.batch.length < 10 →
      ((if 0 < (downloads.foldl (enqueueDownloadsStep sendFail) st).batch.length
        then (downloads.foldl (enqueueDownloadsStep sendFail) st).sent ++
          [(downloads.foldl (enqueueDownloadsStep sendFail) st).batch]
        else (downloads.foldl (enqueueDownloadsStep sendFail) st).sent) =
        st.sent ++ chunks10 (st.batch ++ downloads)) ∧
      (if 0 < (downloads.foldl (enqueueDownloadsStep sendFail) st).batch.length
       then logFail
         (downloads.foldl (enqueueDownloadsStep sendFail) st).logged
         (sendFail
           (downloads.foldl (enqueueDownloadsStep sendFail) st).sent.length)
       else (downloads.foldl (enqueueDownloadsStep sendFail) st).logged) =
        st.logged ++ failuresFrom sendFail st.sent.length
          (chunks10 (st.batch ++ downloads)).length := by
  induction downloads with
  | nil =>
    intro st hlt
    simp only [List.foldl_nil, List.append_nil]
    by_cases hb : st.batch = []
    · rw [hb, chunks10]
      simp [failuresFrom, hb]
    · rw [chunks10_short st.batch hb (by omega)]
      have hpos : 0 < st.batch.length := List.length_pos.mpr hb
      rw [if_pos hpos, if_pos hpos, logFail_eq]
      simp [failuresFrom]
  | cons d rest ih =>
    intro st hlt
    simp only [List.foldl_cons]
    by_cases h10 : (st.batch ++ [d]).length = 10
    · rw [show enqueueDownloadsStep sendFail st d =
          ⟨[], st.sent ++ [st.batch ++ [d]],
            logFail st.logged (sendFail st.sent.length)⟩ from by
        simp only [enqueueDownloadsStep]
        rw [if_pos h10]]
      obtain ⟨ihA, ihB⟩ := ih ⟨[], st.sent ++ [st.batch ++ [d]],
        logFail st.logged (sendFail st.sent.length)⟩ (by simp)
      dsimp only at ihA ihB
      rw [List.nil_append] at ihA ihB
      have hsplit : st.batch ++ d :: rest = (st.batch ++ [d]) ++ rest := by
        simp
      rw [hsplit, chunks10_full_front (st.batch ++ [d]) rest h10]
      constructor
      · rw [ihA]
        simp
      · rw [ihB]
        simp only [List.length_append, List.length_singleton,
          List.length_cons, List.length_nil, Nat.zero_add,
          Nat.add_sub_cancel]
        rw [logFail_failuresFrom]
    · rw [show enqueueDownloadsStep sendFail st d =
          ⟨st.batch ++ [d], st.sent, st.logged⟩ from by
        simp only [enqueueDownloadsStep]
        rw [if_neg h10]]
      obtain ⟨ihA, ihB⟩ := ih ⟨st.batch ++ [d], st.sent, st.logged⟩
        (by simp only [List.length_append, List.length_singleton] at h10 ⊢
            omega)
      dsimp only at ihA ihB
      rw [List.append_assoc, List.singleton_append] at ihA ihB
      exact ⟨ihA, ihB⟩

/-! ## Claim C9 -/

/-- **C9, counterexample.**  The claim says every batch whose send
result reports failed entries has those failures logged.  But
`joerd_enqueuer` never inspects the result of its final flush (line
390): with 5 jobs and a queue whose every send reports entry 0 as
failed, exactly one batch is sent, its result reports a failure, and
nothing is logged. -/
theorem enqueuer_final_batch_failures_unlogged :
    (joerd_enqueuer [0, 1, 2, 3, 4] (fun _ => [0])).1 = [[0, 1, 2, 3, 4]] ∧
    (joerd_enqueuer [0, 1, 2, 3, 4] (fun _ => [0])).2 = [] ∧
    (joerd_enqueue_downloads [0, 1, 2, 3, 4] (fun _ => [0])).2 = [[0]] := by
  decide

/-- **C9, amended.**  Both enqueuers send a list of N job descriptors
as ceil(N/10) batches of at most 10, in order (their concatenation is
the original list; for N = 25 the batch sizes are 10, 10, 5).
`joerd_enqueue_downloads` logs the non-empty failure lists of all its
sends without aborting the remaining batches; `joerd_enqueuer`
likewise logs failures of the full batches sent inside its loop, but
never inspects — and therefore never logs — the send result of its
final flush. -/
theorem enqueuer_batches (jobs : List Nat) (sendFail : Nat → List Nat) :
    (joerd_enqueuer jobs sendFail).1 = chunks10 jobs ∧
    (joerd_enqueue_downloads jobs sendFail).1 = chunks10 jobs ∧
    (chunks10 jobs).flatten = jobs ∧
    (∀ b ∈ chunks10 jobs, b.length ≤ 10) ∧
    (chunks10 jobs).length = (jobs.length + 9) / 10 ∧
    (joerd_enqueue_downloads jobs sendFail).2 =
      failuresFrom sendFail 0 (chunks10 jobs).length ∧
    (joerd_enqueuer jobs sendFail).2 =
      failuresFrom sendFail 0 ((chunks10 jobs).length - 1) ∧
    (chunks10 (List.range 25)).map List.length = [10, 10, 5] := by
  obtain ⟨hA, hB⟩ := foldl_enqueuerStep sendFail jobs ⟨[], [], []⟩ (by simp)
  obtain ⟨hC, hD⟩ := foldl_enqueueDownloadsStep sendFail jobs ⟨[], [], []⟩
    (by simp)
  dsimp only at hA hB hC hD
  simp only [List.nil_append, List.length_nil] at hA hB hC hD
  refine ⟨?_, ?_, chunks10_flatten jobs, chunks10_sizes jobs,
    chunks10_length jobs, ?_, ?_, chunks10_range25⟩
  · simp only [joerd_enqueuer]
    split
    · rw [← hA, if_pos (by assumption)]
    · rw [← hA, if_neg (by omega)]
  · simp only [joerd_enqueue_downloads]
    split
    · rw [← hC, if_pos (by assumption)]
    · rw [← hC, if_neg (by omega)]
  · simp only [joerd_enqueue_downloads]
    split
    · rw [← hD, if_pos (by assumption)]
    · rw [← hD, if_neg (by omega)]
  · simp only [joerd_enqueuer]
    split <;> exact hB

end Joerd

